import Mathlib

/-!
Shallow embedding of the audio-to-spectrogram pipeline of
`src/build_crowtalk.py` (`make_sono`, lines 19-65), together with proofs
settling the specification claims about it.

Numeric conventions: Python/NumPy floating-point values are modelled as
exact rationals (`ℚ`) where the code only slices, averages and divides,
and as reals (`ℝ`) where logarithms and trigonometric functions appear.
Machine integers (sample rates, window sizes) are `ℕ`/`ℤ`.
An uncaught Python exception is modelled as `Except.error`.
-/

namespace Crowtalk

/-! ### Decoder (lines 21-36)

The first strategy (`soundfile.read` with `always_2d=True`) yields a
frames-by-channels matrix which the code averages per frame:
`data = raw.mean(axis=1)`.  The second strategy (`scipy.io.wavfile.read`)
yields integer PCM in the branch every claim addresses (1-D integer data);
the code converts to float and divides by `np.iinfo(raw.dtype).max` only
when `data.max() > 1.0`.  Success or failure of the external reads is an
input to the model (`Option`). -/

/-- Per-frame channel mean, `raw.mean(axis=1)` on one frame. -/
def chanMean (row : List ℚ) : ℚ := row.sum / row.length

/-- Strategy 1: soundfile decode result reduced to mono (line 24). -/
def sfDecode (frames : List (List ℚ)) : List ℚ := frames.map chanMean

/-- `np.iinfo(dtype).max` for a signed integer type of `width` bits,
e.g. `iinfoMax 16 = 32767` (line 33). -/
def iinfoMax (width : ℕ) : ℤ := 2 ^ (width - 1) - 1

/-- Integer PCM data as returned by `scipy.io.wavfile.read` in the 1-D
integer branch: the bit width of the sample dtype and the samples. -/
structure IntPCM where
  width : ℕ
  samples : List ℤ

/-- Strategy 2, the WAV fallback (lines 27-33) on 1-D integer PCM:
convert to float, and divide by `iinfoMax` only when the maximum
converted sample exceeds `1.0`.  `np.max` of an empty array raises, which
the surrounding `except` turns into a failed strategy, hence `none`. -/
def wavFallback (p : IntPCM) : Option (List ℚ) :=
  let data : List ℚ := p.samples.map (fun z : ℤ => (z : ℚ))
  match data.max? with
  | none => none
  | some m => some (if 1 < m then data.map (fun x => x / ((iinfoMax p.width : ℤ) : ℚ)) else data)

/-- The decode chain (lines 21-36): strategy 1 wins if it succeeded,
otherwise strategy 2 is tried; if both fail the decode fails. -/
def decodeChain (sf : Option (List (List ℚ) × ℕ)) (wav : Option (IntPCM × ℕ)) :
    Option (List ℚ × ℕ) :=
  match sf with
  | some (frames, sr) => some (sfDecode frames, sr)
  | none =>
    match wav with
    | some (p, sr) => (wavFallback p).map (fun d => (d, sr))
    | none => none

/-! ### Resampler (lines 38-42) -/

/-- NumPy strided slice `data[::step]`: keep every `step`-th element. -/
def everyNth (l : List ℚ) (step : ℕ) : List ℚ :=
  (l.enum.filter (fun p => p.1 % step = 0)).map Prod.snd

/-- Lines 38-42: `if sr > 22050: step = sr // 22050; data = data[::step];
sr = sr // step`. -/
def resample (data : List ℚ) (sr : ℕ) : List ℚ × ℕ :=
  if 22050 < sr then (everyNth data (sr / 22050), sr / (sr / 22050))
  else (data, sr)

/-! ### STFT parameters (lines 44-45) -/

/-- `nperseg = min(512, len(data) // 8)` (line 44). -/
def npersegOf (N : ℕ) : ℕ := min 512 (N / 8)

/-- `noverlap = nperseg * 3 // 4` (line 45). -/
def noverlapOf (np : ℕ) : ℕ := np * 3 / 4

/-! ### The spectrogram call (line 45)

`scipy.signal.spectrogram(data, fs=sr, nperseg=nperseg,
noverlap=nperseg*3//4, nfft=1024)` with the default one-sided PSD mode.
The validation order is scipy's (`_spectral_helper`):
`nperseg < 1` raises `ValueError`, then `nperseg` is clamped to the input
length (with only a warning), then `nfft < nperseg` and
`noverlap >= nperseg` each raise `ValueError`.  An uncaught `ValueError`
is the single error of the model, since `make_sono` has no handler around
this call. -/

/-- An uncaught Python exception escaping `make_sono`. -/
inductive SonoErr where
  | valueError
deriving DecidableEq

/-- One-sided FFT sample frequencies for `nfft = 1024`:
`f[k] = k * fs / 1024` for `k = 0, ..., 512` (`np.fft.rfftfreq`). -/
def rfreqs (sr : ℕ) : List ℚ := (List.range 513).map (fun k => (k * sr : ℚ) / 1024)

/-- Segment start offsets: windows of length `np` advance by
`step = np - noverlap`; scipy produces `(N - np) / step + 1` segments. -/
def segStarts (N np step : ℕ) : List ℕ :=
  (List.range ((N - np) / step + 1)).map (fun i => i * step)

/-- `np.mean` of a 1-D array. -/
noncomputable def rmean (l : List ℝ) : ℝ := l.sum / l.length

/-- scipy's default `detrend='constant'`: subtract the segment mean. -/
noncomputable def detrendConst (seg : List ℝ) : List ℝ := seg.map (fun x => x - rmean seg)

/-- The Tukey window of `scipy.signal.windows.tukey` with `alpha = 1/4`,
periodic as `spectrogram` uses it (`tukey(M+1, 0.25)` truncated by one):
taper width `w = ⌊M/8⌋` (`= ⌊alpha*(M+1-1)/2⌋`), cosine ramps at both
edges (`2n/(alpha*M) = 8n/M`, `-2/alpha = -8`), flat middle, and all-ones
for `M <= 1` (scipy's small-length guard). -/
noncomputable def tukeyWin (M n : ℕ) : ℝ :=
  let w : ℕ := M / 8
  if M ≤ 1 then 1
  else if n ≤ w then (1 + Real.cos (Real.pi * (-1 + 8 * n / M))) / 2
  else if n < M - w then 1
  else (1 + Real.cos (Real.pi * (-8 + 1 + 8 * n / M))) / 2

/-- Squared magnitude of DFT bin `k` (of `nfft = 1024`) of the windowed,
detrended segment: `|Σ_n w(n)·x(n)·e^(-2πikn/1024)|²`. -/
noncomputable def dftPow (w : ℕ → ℝ) (seg : List ℝ) (k : ℕ) : ℝ :=
  (∑ n ∈ Finset.range seg.length,
      w n * seg.getD n 0 * Real.cos (2 * Real.pi * k * n / 1024)) ^ 2 +
  (∑ n ∈ Finset.range seg.length,
      w n * seg.getD n 0 * Real.sin (2 * Real.pi * k * n / 1024)) ^ 2

/-- scipy's `'density'` scaling: `1 / (fs * Σ w(n)²)`. -/
noncomputable def psdScale (sr np : ℕ) : ℝ :=
  1 / (sr * ∑ n ∈ Finset.range np, tukeyWin np n ^ 2)

/-- One-sided doubling: every bin except DC and Nyquist is doubled. -/
noncomputable def onesidedFactor (k : ℕ) : ℝ := if k = 0 ∨ k = 512 then 1 else 2

/-- The PSD matrix `Sxx` (rows: 513 frequency bins; columns: segments). -/
noncomputable def sxx (data : List ℝ) (sr np no : ℕ) : List (List ℝ) :=
  (List.range 513).map (fun k =>
    (segStarts data.length np (np - no)).map (fun s =>
      onesidedFactor k * psdScale sr np *
        dftPow (tukeyWin np) (detrendConst ((data.drop s).take np)) k))

/-- The guarded spectrogram call: scipy's parameter validation followed by
the PSD computation, returning `(f, Sxx)` (`t` is never used for values). -/
noncomputable def spectrogramStage (data : List ℝ) (sr np no : ℕ) :
    Except SonoErr (List ℚ × List (List ℝ)) :=
  if np < 1 then .error .valueError
  else if 1024 < min np data.length then .error .valueError
  else if min np data.length ≤ no then .error .valueError
  else .ok (rfreqs sr, sxx data sr (min np data.length) no)

/-! ### Frequency mask (lines 46-47): `mask = f <= 8000; Sxx[mask]` -/

/-- The boolean mask `f <= 8000` applied simultaneously to the frequency
vector and to the rows of `Sxx`. -/
def maskPairs (freqs : List ℚ) (rows : List (List ℝ)) : List (ℚ × List ℝ) :=
  (freqs.zip rows).filter (fun p => p.1 ≤ 8000)

/-! ### Dynamic-range normalizer (lines 47-48) -/

/-- `10 * np.log10(np.maximum(p, 1e-10))` on one bin (line 47). -/
noncomputable def dB (p : ℝ) : ℝ := 10 * Real.logb 10 (max p (1 / 10 ^ 10))

/-- Element-wise dB transform of the masked power matrix (line 47). -/
noncomputable def sonoDb (m : List (List ℝ)) : List (List ℝ) := m.map (fun r => r.map dB)

/-- Ascending sort of real values (what `np.percentile` does internally). -/
noncomputable def sortR (l : List ℝ) : List ℝ := l.mergeSort (fun a b => a ≤ b)

/-- The fractional order-statistic rank `h = (n-1)·q/100` used by
`np.percentile` with its default linear interpolation. -/
def pRank (n : ℕ) (q : ℚ) : ℚ := ((n : ℚ) - 1) * q / 100

/-- The lower interpolation index `⌊h⌋` of `np.percentile`. -/
def pIdx (n : ℕ) (q : ℚ) : ℕ := (pRank n q).floor.toNat

/-- `np.percentile(a, q)` with the default linear interpolation: sort,
take `h = (n-1)·q/100`, and interpolate between the order statistics at
`⌊h⌋` and the next index.  (NumPy raises on an empty array; the pipeline
only reaches this call with a non-empty matrix.) -/
noncomputable def percentile (l : List ℝ) (q : ℚ) : ℝ :=
  (sortR l).getD (pIdx l.length q) 0 +
    ((pRank l.length q - pIdx l.length q : ℚ) : ℝ) *
      ((sortR l).getD (min (pIdx l.length q + 1) (l.length - 1)) 0 -
        (sortR l).getD (pIdx l.length q) 0)

/-- Line 48: `vmin, vmax = np.percentile(Sxx_db, [5, 99])` (a 2-D array is
flattened row-major by `np.percentile`). -/
noncomputable def sonoBounds (db : List (List ℝ)) : ℝ × ℝ :=
  (percentile db.flatten 5, percentile db.flatten 99)

/-! ### Color normalization (lines 51-52)

`pcolormesh(..., vmin=vmin, vmax=vmax, ...)` normalizes each value through
`matplotlib.colors.Normalize`: when `vmin == vmax` every value is mapped
to `0` (the colormap's first stop) with no division performed; otherwise
the value is mapped affinely. -/

/-- Scalar behaviour of `matplotlib.colors.Normalize.__call__`. -/
noncomputable def mplNormalize (vmin vmax x : ℝ) : ℝ :=
  if vmin = vmax then 0 else (x - vmin) / (vmax - vmin)

/-- Modelled from the spec: the normalizer the claim describes, which
"clamps to a minimum span (e.g., treat `vmax = vmin + epsilon`)" and maps
linearly through the clamped range, clipping into `[0, 1]`. -/
noncomputable def specClampedNormalize (vmin eps x : ℝ) : ℝ :=
  max 0 (min ((x - vmin) / eps) 1)

/-- The rendered artifact, as far as the numeric pipeline determines it:
the masked dB matrix normalized through the `vmin`/`vmax` bounds.  (The
subsequent rasterization and PNG/base64 encoding are value-preserving
re-encodings performed by matplotlib, outside this repository.) -/
noncomputable def renderArtifact (db : List (List ℝ)) : List (List ℝ) :=
  db.map (fun r => r.map (mplNormalize (sonoBounds db).1 (sonoBounds db).2))

/-! ### The pipeline driver (lines 19-65) -/

/-- `make_sono` from the first successfully decoded buffer onward
(lines 38-65): resample, derive the STFT parameters, call the spectrogram
routine (which may raise), mask, convert to dB, normalize. -/
noncomputable def makeSonoFromDecoded (data : List ℚ) (sr : ℕ) :
    Except SonoErr (List (List ℝ)) :=
  (spectrogramStage ((resample data sr).1.map (fun x : ℚ => (x : ℝ))) (resample data sr).2
      (npersegOf (resample data sr).1.length)
      (noverlapOf (npersegOf (resample data sr).1.length))).map (fun fS =>
    renderArtifact (sonoDb ((maskPairs fS.1 fS.2).map Prod.snd)))

/-- The whole of `make_sono` (lines 19-65).  The outcomes of the two
external decode reads are the inputs; `.ok none` is Python's
`return None`, `.error` an uncaught exception. -/
noncomputable def make_sono (sf : Option (List (List ℚ) × ℕ))
    (wav : Option (IntPCM × ℕ)) : Except SonoErr (Option (List (List ℝ))) :=
  match decodeChain sf wav with
  | none => .ok none
  | some (data, sr) => (makeSonoFromDecoded data sr).map some

/-! ### Helper lemmas -/

theorem everyNth_length_le (l : List ℚ) (st : ℕ) : (everyNth l st).length ≤ l.length := by
  unfold everyNth
  rw [List.length_map]
  exact le_trans (List.length_filter_le _ _) (by rw [List.enum_length])

theorem resample_length_le (data : List ℚ) (sr : ℕ) :
    (resample data sr).1.length ≤ data.length := by
  unfold resample
  split
  · exact everyNth_length_le data _
  · exact le_rfl

theorem getD_zero_of_allZero {l : List ℝ} (h : ∀ x ∈ l, x = 0) (n : ℕ) :
    l.getD n 0 = 0 := by
  rw [List.getD_eq_getElem?_getD]
  cases hl : l[n]? with
  | none => rfl
  | some a => simpa using h a (List.getElem?_mem hl)

theorem rmean_allZero {l : List ℝ} (h : ∀ x ∈ l, x = 0) : rmean l = 0 := by
  unfold rmean
  rw [List.sum_eq_zero h, zero_div]

theorem detrendConst_allZero {l : List ℝ} (h : ∀ x ∈ l, x = 0) :
    ∀ x ∈ detrendConst l, x = 0 := by
  intro x hx
  obtain ⟨y, hy, rfl⟩ := List.mem_map.mp hx
  rw [h y hy, rmean_allZero h, sub_zero]

theorem dftPow_allZero (w : ℕ → ℝ) {seg : List ℝ} (h : ∀ x ∈ seg, x = 0) (k : ℕ) :
    dftPow w seg k = 0 := by
  unfold dftPow
  have hz : ∀ f : ℕ → ℝ,
      (∑ n ∈ Finset.range seg.length, w n * seg.getD n 0 * f n) = 0 := by
    intro f
    refine Finset.sum_eq_zero fun n _ => ?_
    rw [getD_zero_of_allZero h n, mul_zero, zero_mul]
  rw [hz, hz]
  norm_num

theorem sxx_allZero {data : List ℝ} (h : ∀ x ∈ data, x = 0) (sr np no : ℕ) :
    ∀ row ∈ sxx data sr np no, ∀ x ∈ row, x = 0 := by
  intro row hrow x hx
  obtain ⟨k, _, rfl⟩ := List.mem_map.mp hrow
  obtain ⟨s, _, rfl⟩ := List.mem_map.mp hx
  have hseg : ∀ y ∈ (data.drop s).take np, y = 0 := fun y hy =>
    h y (List.mem_of_mem_drop (List.mem_of_mem_take hy))
  rw [dftPow_allZero _ (detrendConst_allZero hseg) k, mul_zero]

theorem sortR_allEq {l : List ℝ} {c : ℝ} (h : ∀ x ∈ l, x = c) :
    sortR l = List.replicate l.length c := by
  have hp : List.Perm (sortR l) l := List.mergeSort_perm l _
  rw [List.eq_replicate_iff]
  exact ⟨hp.length_eq, fun b hb => h b (hp.mem_iff.mp hb)⟩

theorem getD_replicate_of_lt {n i : ℕ} {c : ℝ} (h : i < n) :
    (List.replicate n c).getD i 0 = c := by
  rw [List.getD_eq_getElem?_getD, List.getElem?_replicate_of_lt h]
  rfl

theorem pIdx_lt {n : ℕ} (q : ℚ) (hq1 : q ≤ 100) : pIdx (n + 1) q < n + 1 := by
  have hfl : pRank (n + 1) q ≤ n := by
    unfold pRank
    push_cast
    rw [add_sub_cancel_right, div_le_iff₀ (by norm_num : (0 : ℚ) < 100)]
    have := mul_le_mul_of_nonneg_left hq1 (show (0 : ℚ) ≤ n by positivity)
    linarith
  have h1 : (pRank (n + 1) q).floor ≤ (n : ℤ) := by
    have := Int.floor_le_floor hfl
    rwa [Int.floor_natCast] at this
  unfold pIdx
  omega

theorem percentile_allEq {l : List ℝ} {c : ℝ} (q : ℚ) (hq1 : q ≤ 100)
    (h : ∀ x ∈ l, x = c) :
    percentile l q = if l.length = 0 then 0 else c := by
  unfold percentile
  rw [sortR_allEq h]
  cases hn : l.length with
  | zero => simp
  | succ n =>
    have hi : pIdx (n + 1) q < n + 1 := pIdx_lt q hq1
    have hj : min (pIdx (n + 1) q + 1) (n + 1 - 1) < n + 1 := by omega
    rw [getD_replicate_of_lt hi, getD_replicate_of_lt hj, sub_self, mul_zero, add_zero]
    simp

theorem npersegOf_pos {N : ℕ} (h : 8 ≤ N) : 1 ≤ npersegOf N :=
  le_min (by norm_num) ((Nat.one_le_div_iff (by norm_num)).mpr h)

theorem npersegOf_le (N : ℕ) : npersegOf N ≤ N :=
  le_trans (min_le_right _ _) (Nat.div_le_self _ _)

theorem noverlapOf_lt {np : ℕ} (h : 1 ≤ np) : noverlapOf np < np := by
  unfold noverlapOf
  omega

theorem spectrogramStage_ok (data : List ℝ) (sr : ℕ) (h : 8 ≤ data.length) :
    spectrogramStage data sr (npersegOf data.length)
        (noverlapOf (npersegOf data.length)) =
      .ok (rfreqs sr, sxx data sr (npersegOf data.length)
        (noverlapOf (npersegOf data.length))) := by
  have hnp1 : 1 ≤ npersegOf data.length := npersegOf_pos h
  have hnpN : npersegOf data.length ≤ data.length := npersegOf_le _
  have hnp512 : npersegOf data.length ≤ 512 := min_le_left _ _
  have hno : noverlapOf (npersegOf data.length) < npersegOf data.length :=
    noverlapOf_lt hnp1
  unfold spectrogramStage
  rw [min_eq_left hnpN, if_neg (by omega), if_neg (by omega), if_neg (by omega)]

theorem maskPairs_snd_allZero {freqs : List ℚ} {rows : List (List ℝ)}
    (h : ∀ row ∈ rows, ∀ x ∈ row, x = 0) :
    ∀ row ∈ (maskPairs freqs rows).map Prod.snd, ∀ x ∈ row, x = 0 := by
  intro row hrow
  obtain ⟨pr, hpr, rfl⟩ := List.mem_map.mp hrow
  have hz := List.of_mem_zip (List.mem_filter.mp hpr).1
  exact h pr.2 hz.2

theorem sonoDb_flatten_allEq {M : List (List ℝ)} (h : ∀ row ∈ M, ∀ x ∈ row, x = 0) :
    ∀ x ∈ (sonoDb M).flatten, x = dB 0 := by
  intro x hx
  obtain ⟨r, hr, hxr⟩ := List.mem_flatten.mp hx
  obtain ⟨r0, hr0, rfl⟩ := List.mem_map.mp hr
  obtain ⟨y, hy, rfl⟩ := List.mem_map.mp hxr
  rw [h r0 hr0 y hy]

theorem renderArtifact_allZero {db : List (List ℝ)} {c : ℝ}
    (h : ∀ x ∈ db.flatten, x = c) :
    ∀ row ∈ renderArtifact db, ∀ x ∈ row, x = 0 := by
  have hb : (sonoBounds db).1 = (sonoBounds db).2 := by
    unfold sonoBounds
    rw [percentile_allEq 5 (by norm_num) h, percentile_allEq 99 (by norm_num) h]
  intro row hrow x hx
  obtain ⟨r, hr, rfl⟩ := List.mem_map.mp hrow
  obtain ⟨y, hy, rfl⟩ := List.mem_map.mp hx
  unfold mplNormalize
  rw [if_pos hb]

/-! ### Claims -/

/-- C2, counterexample: at input sample rate 48000 Hz the decimation step
yields `step = 48000 // 22050 = 2` and a downstream rate of
`48000 // 2 = 24000`, which exceeds the claimed 22050 Hz ceiling. -/
theorem c2_counterexample :
    (resample ([0] : List ℚ) 48000).2 = 24000 ∧
    ¬ ((resample ([0] : List ℚ) 48000).2 ≤ 22050) := by decide

/-- C2, amended: the sample rate used downstream,
`sr // (sr // 22050)` for `sr > 22050` and `sr` otherwise, is strictly
below `2 × 22050 = 44100` Hz, but can exceed 22050 Hz. -/
theorem c2_amended (data : List ℚ) (sr : ℕ) : (resample data sr).2 < 44100 := by
  unfold resample
  split
  · next h =>
    have hpos : 0 < sr / 22050 := Nat.div_pos (le_of_lt h) (by norm_num)
    simp only
    rw [Nat.div_lt_iff_lt_mul hpos]
    omega
  · next h =>
    simp only
    omega

/-- C10: for a buffer of `N ≥ 8` samples entering the spectrogram call,
`nperseg = min(512, N // 8)` satisfies `1 ≤ nperseg ≤ N`,
`noverlap = nperseg * 3 // 4 < nperseg`, and scipy's parameter
validation accepts the call (no `ValueError` on any of its checks). -/
theorem c10_stft_params (data : List ℝ) (sr : ℕ) (h : 8 ≤ data.length) :
    1 ≤ npersegOf data.length ∧ npersegOf data.length ≤ data.length ∧
    noverlapOf (npersegOf data.length) < npersegOf data.length ∧
    spectrogramStage data sr (npersegOf data.length)
        (noverlapOf (npersegOf data.length)) =
      .ok (rfreqs sr, sxx data sr (npersegOf data.length)
        (noverlapOf (npersegOf data.length))) := by
  have h8 : 1 ≤ data.length / 8 := (Nat.one_le_div_iff (by norm_num)).mpr h
  have hnp1 : 1 ≤ npersegOf data.length := le_min (by norm_num) h8
  have hnpN : npersegOf data.length ≤ data.length :=
    le_trans (min_le_right _ _) (Nat.div_le_self _ _)
  have hnp512 : npersegOf data.length ≤ 512 := min_le_left _ _
  have hno : noverlapOf (npersegOf data.length) < npersegOf data.length := by
    unfold noverlapOf
    omega
  refine ⟨hnp1, hnpN, hno, ?_⟩
  unfold spectrogramStage
  rw [min_eq_left hnpN, if_neg (by omega), if_neg (by omega), if_neg (by omega)]

/-- C10 witness: an 8-sample buffer at 22050 Hz. -/
theorem c10_witness :
    1 ≤ npersegOf (List.replicate 8 (0 : ℝ)).length ∧
    npersegOf (List.replicate 8 (0 : ℝ)).length ≤ (List.replicate 8 (0 : ℝ)).length ∧
    noverlapOf (npersegOf (List.replicate 8 (0 : ℝ)).length) <
      npersegOf (List.replicate 8 (0 : ℝ)).length ∧
    spectrogramStage (List.replicate 8 (0 : ℝ)) 22050
        (npersegOf (List.replicate 8 (0 : ℝ)).length)
        (noverlapOf (npersegOf (List.replicate 8 (0 : ℝ)).length)) =
      .ok (rfreqs 22050, sxx (List.replicate 8 (0 : ℝ)) 22050
        (npersegOf (List.replicate 8 (0 : ℝ)).length)
        (noverlapOf (npersegOf (List.replicate 8 (0 : ℝ)).length))) :=
  c10_stft_params (List.replicate 8 (0 : ℝ)) 22050 (by simp)

/-- C8: the bin transform `p ↦ 10 * log10(max(p, 1e-10))` is monotone
non-decreasing. -/
theorem c8_db_monotone (p1 p2 : ℝ) (h : p1 ≤ p2) : dB p1 ≤ dB p2 := by
  unfold dB
  have hx : (0 : ℝ) < max p1 (1 / 10 ^ 10) := lt_max_of_lt_right (by norm_num)
  have hxy : max p1 (1 / 10 ^ 10) ≤ max p2 (1 / 10 ^ 10) := max_le_max h le_rfl
  have := Real.logb_le_logb_of_le (by norm_num : (1 : ℝ) < 10) hx hxy
  linarith

/-- C8 witness: concrete bins `1 ≤ 2`. -/
theorem c8_witness : dB 1 ≤ dB 2 := c8_db_monotone 1 2 (by norm_num)

theorem logb_ten_floor : Real.logb 10 (1 / 10 ^ 10 : ℝ) = -10 := by
  have hlog : Real.log 10 ≠ 0 :=
    Real.log_ne_zero_of_pos_of_ne_one (by norm_num) (by norm_num)
  rw [Real.logb, one_div, Real.log_inv, Real.log_pow]
  field_simp

/-- C6: the normalizer computes `dB = 10 * log10(max(power, 1e-10))`
element-wise, the dB value of every bin (a zero-power bin included) is
bounded below by `-100` (never `-∞`), and `vmin`/`vmax` are the 5th and
99th percentiles of all dB values of the matrix. -/
theorem c6_normalizer :
    (∀ m : List (List ℝ), sonoDb m =
      m.map (fun r => r.map (fun p => 10 * Real.logb 10 (max p (1 / 10 ^ 10))))) ∧
    (∀ p : ℝ, -100 ≤ dB p) ∧ dB 0 = -100 ∧
    (∀ db : List (List ℝ),
      sonoBounds db = (percentile db.flatten 5, percentile db.flatten 99)) := by
  refine ⟨fun m => rfl, ?_, ?_, fun db => rfl⟩
  · intro p
    unfold dB
    have := Real.logb_le_logb_of_le (by norm_num : (1 : ℝ) < 10)
      (by norm_num : (0 : ℝ) < 1 / 10 ^ 10) (le_max_right p (1 / 10 ^ 10))
    rw [logb_ten_floor] at this
    linarith
  · unfold dB
    rw [max_eq_right (by norm_num : (0 : ℝ) ≤ 1 / 10 ^ 10), logb_ten_floor]
    norm_num

/-- C7: every row retained by the mask `f <= 8000` carries a frequency of
at most 8000 Hz, and every row of the full-band matrix whose frequency
exceeds 8000 Hz is discarded by it. -/
theorem c7_freq_mask (freqs : List ℚ) (rows : List (List ℝ)) :
    (∀ p ∈ maskPairs freqs rows, p.1 ≤ 8000) ∧
    (∀ p ∈ freqs.zip rows, 8000 < p.1 → p ∉ maskPairs freqs rows) := by
  constructor
  · intro p hp
    have := (List.mem_filter.mp hp).2
    simpa using this
  · intro p _ hgt hmem
    have := (List.mem_filter.mp hmem).2
    simp only [decide_eq_true_eq] at this
    exact absurd this (not_le.mpr hgt)

/-- C7 witness: the 0 Hz row is retained by the mask. -/
theorem c7_witness : ((0 : ℚ), ([] : List ℝ)).1 ≤ 8000 :=
  (c7_freq_mask [0] [[]]).1 (0, []) (by simp [maskPairs])

/-- C5: when strategy 1 fails and strategy 2 yields nothing either
(no WAV result, or the fallback itself fails), `make_sono` returns the
explicit absence value (`None`) and no error escapes. -/
theorem c5_decode_failure (sf : Option (List (List ℚ) × ℕ)) (wav : Option (IntPCM × ℕ))
    (h1 : sf = none)
    (h2 : wav.bind (fun q => (wavFallback q.1).map (fun d => (d, q.2))) = none) :
    make_sono sf wav = .ok none := by
  subst h1
  have hd : decodeChain none wav = none := by
    unfold decodeChain
    cases wav with
    | none => rfl
    | some q => simpa using h2
  unfold make_sono
  rw [hd]

/-- C5 witness: both strategies fail outright. -/
theorem c5_witness : make_sono none none = .ok none :=
  c5_decode_failure none none rfl rfl

/-- C9: the pipeline is a pure function of the decoded input alone — two
runs on identical inputs produce identical results (the embedded pipeline
takes no randomness or clock input anywhere). -/
theorem c9_deterministic (sf sf' : Option (List (List ℚ) × ℕ))
    (wav wav' : Option (IntPCM × ℕ)) (h1 : sf = sf') (h2 : wav = wav') :
    make_sono sf wav = make_sono sf' wav' := by
  rw [h1, h2]

/-- C9 witness: two runs on the same concrete input. -/
theorem c9_witness : make_sono none none = make_sono none none :=
  c9_deterministic none none none none rfl rfl

/-- C1: a decoded buffer with fewer than 8 samples makes the code pass
`nperseg = min(512, N // 8) = 0` to `scipy.signal.spectrogram`, whose
validation raises a `ValueError` that no handler in `make_sono` catches —
the call raises instead of returning `None` as the claim states. -/
theorem c1_short_input_raises (data : List ℚ) (sr : ℕ) (h : data.length < 8) :
    makeSonoFromDecoded data sr = .error .valueError := by
  have hlen : (resample data sr).1.length < 8 :=
    lt_of_le_of_lt (resample_length_le data sr) h
  have hnp : npersegOf (resample data sr).1.length = 0 := by
    unfold npersegOf
    omega
  unfold makeSonoFromDecoded
  rw [hnp]
  unfold spectrogramStage
  rw [if_pos (by norm_num)]
  rfl

/-- C1 witness: a 4-sample decoded buffer at 8000 Hz makes the
sonogram-generation call end in an uncaught `ValueError`. -/
theorem c1_witness : makeSonoFromDecoded [0, 0, 0, 0] 8000 = .error .valueError :=
  c1_short_input_raises [0, 0, 0, 0] 8000 (by decide)

/-- C3, counterexample: for int16 PCM `[1, -32768]` the converted float
maximum is `1.0`, which is not `> 1.0`, so the fallback performs no
division at all and returns a buffer containing `-32768`, far outside
`[-1, 1]`. -/
theorem c3_counterexample :
    wavFallback ⟨16, [1, -32768]⟩ = some [1, -32768] ∧
    ¬ (∀ x ∈ [(1 : ℚ), -32768], -1 ≤ x ∧ x ≤ 1) := by decide

/-- C3, amended: the WAV fallback divides integer PCM by
`np.iinfo(dtype).max` only when the float-converted maximum exceeds `1.0`;
when it does divide, every resulting sample lies in
`[-(2^(w-1))/(2^(w-1)-1), 1]` — an interval whose lower end is slightly
below `-1` (for int16, `-32768/32767`). -/
theorem c3_amended (w : ℕ) (samples : List ℤ) (hw : 2 ≤ w)
    (hlo : ∀ z ∈ samples, -(2 ^ (w - 1)) ≤ z)
    (hhi : ∀ z ∈ samples, z ≤ 2 ^ (w - 1) - 1)
    (m : ℚ) (hm : (samples.map (fun z : ℤ => (z : ℚ))).max? = some m) (h1 : 1 < m) :
    wavFallback ⟨w, samples⟩ =
      some ((samples.map (fun z : ℤ => (z : ℚ))).map
        (fun x => x / ((iinfoMax w : ℤ) : ℚ))) ∧
    ∀ x ∈ (samples.map (fun z : ℤ => (z : ℚ))).map (fun x => x / ((iinfoMax w : ℤ) : ℚ)),
      -((2 : ℚ) ^ (w - 1) / ((2 : ℚ) ^ (w - 1) - 1)) ≤ x ∧ x ≤ 1 := by
  have h2 : (2 : ℚ) ≤ (2 : ℚ) ^ (w - 1) := by
    calc (2 : ℚ) = 2 ^ 1 := (pow_one 2).symm
      _ ≤ 2 ^ (w - 1) := pow_le_pow_right₀ (by norm_num) (by omega)
  have hdpos : (0 : ℚ) < (2 : ℚ) ^ (w - 1) - 1 := by linarith
  have hcast : ((iinfoMax w : ℤ) : ℚ) = (2 : ℚ) ^ (w - 1) - 1 := by
    unfold iinfoMax
    push_cast
    ring
  constructor
  · unfold wavFallback
    dsimp only
    rw [hm]
    dsimp only
    rw [if_pos h1]
  · intro x hx
    obtain ⟨y, hy, rfl⟩ := List.mem_map.mp hx
    obtain ⟨z, hz, rfl⟩ := List.mem_map.mp hy
    rw [hcast]
    constructor
    · have hzlo : -((2 : ℚ) ^ (w - 1)) ≤ (z : ℚ) := by
        exact_mod_cast hlo z hz
      calc -((2 : ℚ) ^ (w - 1) / ((2 : ℚ) ^ (w - 1) - 1))
          = (-((2 : ℚ) ^ (w - 1))) / ((2 : ℚ) ^ (w - 1) - 1) := (neg_div _ _).symm
        _ ≤ (z : ℚ) / ((2 : ℚ) ^ (w - 1) - 1) := (div_le_div_iff_of_pos_right hdpos).mpr hzlo
    · rw [div_le_one hdpos]
      exact_mod_cast hhi z hz

/-- C3 amended witness: int16 PCM `[2, -32768]` triggers the division and
every output sample lies in `[-32768/32767, 1]`. -/
theorem c3_witness :
    wavFallback ⟨16, [2, -32768]⟩ =
      some (([2, -32768].map (fun z : ℤ => (z : ℚ))).map
        (fun x => x / ((iinfoMax 16 : ℤ) : ℚ))) ∧
    ∀ x ∈ ([2, -32768].map (fun z : ℤ => (z : ℚ))).map
        (fun x => x / ((iinfoMax 16 : ℤ) : ℚ)),
      -((2 : ℚ) ^ (16 - 1) / ((2 : ℚ) ^ (16 - 1) - 1)) ≤ x ∧ x ≤ 1 :=
  c3_amended 16 [2, -32768] (by norm_num) (by decide) (by decide) 2 (by decide)
    (by norm_num)

set_option maxRecDepth 4000 in
/-- C4: when the dB matrix is uniform (e.g. silent input) the 5th and
99th percentiles coincide; the color mapping treats `vmin = vmax` by a
total, non-dividing branch that sends every value to the gradient's first
stop, so the mapping involves no division by zero, and a silent input of
sufficient length yields a valid non-null artifact (a flat image). -/
theorem c4_degenerate_silence :
    (∀ v x : ℝ, mplNormalize v v x = 0) ∧
    ∀ N sr : ℕ, 8 ≤ N → sr ≤ 22050 →
      ∃ A, makeSonoFromDecoded (List.replicate N (0 : ℚ)) sr = .ok A ∧
        ∀ row ∈ A, ∀ x ∈ row, x = 0 := by
  constructor
  · intro v x
    unfold mplNormalize
    rw [if_pos rfl]
  · intro N sr hN hsr
    have hres : resample (List.replicate N (0 : ℚ)) sr =
        (List.replicate N (0 : ℚ), sr) := by
      unfold resample
      rw [if_neg (by omega)]
    have hmap : (List.replicate N (0 : ℚ)).map (fun x : ℚ => (x : ℝ)) =
        List.replicate N (0 : ℝ) := by
      rw [List.map_replicate]
      norm_num
    have hstage : spectrogramStage (List.replicate N (0 : ℝ)) sr (npersegOf N)
        (noverlapOf (npersegOf N)) =
        .ok (rfreqs sr, sxx (List.replicate N (0 : ℝ)) sr (npersegOf N)
          (noverlapOf (npersegOf N))) := by
      have := spectrogramStage_ok (List.replicate N (0 : ℝ)) sr (by simpa using hN)
      simpa using this
    have hZ : ∀ x ∈ List.replicate N (0 : ℝ), x = 0 := fun x hx =>
      List.eq_of_mem_replicate hx
    unfold makeSonoFromDecoded
    rw [hres]
    dsimp only
    rw [hmap, List.length_replicate, hstage]
    refine ⟨_, rfl, ?_⟩
    exact renderArtifact_allZero
      (sonoDb_flatten_allEq (maskPairs_snd_allZero (sxx_allZero hZ sr _ _)))

/-- C4 witness: 16 zero samples at 22050 Hz yield a valid artifact with
every pixel value at the gradient's first stop. -/
theorem c4_witness :
    ∃ A, makeSonoFromDecoded (List.replicate 16 (0 : ℚ)) 22050 = .ok A ∧
      ∀ row ∈ A, ∀ x ∈ row, x = 0 :=
  c4_degenerate_silence.2 16 22050 (by norm_num) (by norm_num)

end Crowtalk
